import Mathlib

/-!
Shallow embedding of the injury-report PDF reconstruction engine of this
repository (`lib_dev/pdfextractor.py`, `lib_dev/smartbetting.py`,
`injuryreport_dev/raw/raw_injury_report.py`), together with theorems
checking the natural-language specification against the code.

Grids are lists of rows of raw text cells; Python string truthiness is
modelled as inequality with the empty string after `str.strip()`
(`pyStrip`).
-/

namespace Lamjav

/-! ### String helpers (Python `in`, `str.split(",")`) -/

/-- Python substring containment `needle in hay`, on character lists. -/
def containsSub (hay needle : List Char) : Bool :=
  if needle.isPrefixOf hay then true
  else
    match hay with
    | [] => false
    | _ :: t => containsSub t needle

/-- Python `needle in hay` on strings. -/
def pyIn (needle hay : String) : Bool :=
  containsSub hay.data needle.data

/-- Python `str.split(",")` on character lists: splits at every comma. -/
def splitCommaChars : List Char → List (List Char)
  | [] => [[]]
  | c :: cs =>
    if c = ',' then [] :: splitCommaChars cs
    else
      match splitCommaChars cs with
      | t :: ts => (c :: t) :: ts
      | [] => [[c]]

/-- Python `value.split(",")` on strings. -/
def pySplitComma (s : String) : List String :=
  (splitCommaChars s.data).map List.asString

/-- Python `str.strip()`: drop whitespace from both ends. -/
def pyStrip (s : String) : String :=
  (((s.data.dropWhile Char.isWhitespace).reverse.dropWhile
    Char.isWhitespace).reverse).asString

/-- Python `str.lower()` (ASCII). -/
def pyLower (s : String) : String :=
  (s.data.map Char.toLower).asString

/-! ### Canonical rows (the six canonical fields of `get_table_data`) -/

/-- A row carrying the six canonical fields, as produced by
`get_table_data` after header resolution (`lib_dev/pdfextractor.py`). -/
structure Row6 where
  game_date : String
  game_time : String
  matchup : String
  team : String
  player_name : String
  current_status : String
deriving DecidableEq, Repr

/-- The row has a non-empty `Player Name` cell after stripping. -/
def isPlayerRow (r : Row6) : Bool :=
  (pyStrip r.player_name) != ""

/-- The row carries team / game-date / matchup / game-time context
(a section or game header row in `_consolidate_related_rows_improved`). -/
def isHeaderRow (r : Row6) : Bool :=
  (pyStrip r.team) != "" || (pyStrip r.game_date) != "" ||
  (pyStrip r.matchup) != "" || (pyStrip r.game_time) != ""

/-- Orphan continuation row skipped by the inner loop of
`_consolidate_related_rows_improved`: only `Current Status` is non-empty. -/
def isOrphanStatusRow (r : Row6) : Bool :=
  (pyStrip r.current_status) != "" && (pyStrip r.player_name) == "" &&
  (pyStrip r.team) == "" && (pyStrip r.game_date) == "" &&
  (pyStrip r.matchup) == "" && (pyStrip r.game_time) == ""

/-- `_consolidate_related_rows_improved` (lib_dev/pdfextractor.py:713):
walk the rows; a player row is emitted unchanged and the orphan status
rows immediately after it are consumed (skipped); a header row is kept;
any other row is dropped. -/
def consolidateRelatedRowsImproved : List Row6 → List Row6
  | [] => []
  | r :: rest =>
    if isPlayerRow r then
      r :: consolidateRelatedRowsImproved (rest.dropWhile isOrphanStatusRow)
    else if isHeaderRow r then
      r :: consolidateRelatedRowsImproved rest
    else
      consolidateRelatedRowsImproved rest
termination_by l => l.length
decreasing_by
  · exact Nat.lt_succ_of_le (List.dropWhile_sublist _).length_le
  · exact Nat.lt_succ_of_le (Nat.le_refl _)
  · exact Nat.lt_succ_of_le (Nat.le_refl _)

/-- Number of non-empty (and non-`"nan"`) canonical fields of a row
(`non_empty_fields` in `_clean_fragmented_data_improved`). -/
def countNonEmpty (r : Row6) : Nat :=
  (([r.game_date, r.game_time, r.matchup, r.team, r.player_name,
     r.current_status]).map pyStrip).countP
    (fun v => v != "" && v != "nan")

/-- Validity test of `_clean_fragmented_data_improved`
(lib_dev/pdfextractor.py:811): the row is kept when it has a player
name, a team, a date+matchup or time+matchup pair, or at least three
non-empty fields — unless it is a standalone status fragment. -/
def isValidRow (r : Row6) : Bool :=
  let player_val := (pyStrip r.player_name)
  let team_val := (pyStrip r.team)
  let game_date_val := (pyStrip r.game_date)
  let matchup_val := (pyStrip r.matchup)
  let game_time_val := (pyStrip r.game_time)
  let status_val := (pyStrip r.current_status)
  let non_empty_fields := countNonEmpty r
  let base :=
    if player_val != "" then true
    else if team_val != "" then true
    else if game_date_val != "" && matchup_val != "" then true
    else if game_time_val != "" && matchup_val != "" then true
    else if 3 ≤ non_empty_fields then true
    else false
  if non_empty_fields == 1 && status_val != "" && player_val == "" &&
      team_val == "" && game_date_val == "" && matchup_val == "" &&
      game_time_val == "" then
    false
  else
    base

/-- `_clean_fragmented_data_improved`: keep only the valid rows. -/
def cleanFragmentedDataImproved (rows : List Row6) : List Row6 :=
  rows.filter isValidRow

/-! ### Header resolution on page 1 (`get_table_data`, lines 129-162) -/

/-- The canonical column labels (`desired_columns`). -/
def desiredColumns : List String :=
  ["Game Date", "Game Time", "Matchup", "Team", "Player Name",
   "Current Status"]

/-- `desired.lower() in str(available).lower()`. -/
def headerMatches (available desired : String) : Bool :=
  pyIn (pyLower desired) (pyLower available)

/-- Python dict assignment `m[k] = v`: replace the value at key `k` or
append a new entry. -/
def dictInsert : List (String × String) → String → String → List (String × String)
  | [], k, v => [(k, v)]
  | (k', v') :: rest, k, v =>
    if k' == k then (k, v) :: rest else (k', v') :: dictInsert rest k v

/-- `column_mapping`: for each desired column take the first available
header containing it (case-insensitively) and record available → desired,
overwriting any earlier entry for the same available header. The fold is
over an arbitrary list of desired names so that proofs can induct. -/
def buildMapping (available : List String) (ds : List String)
    (m0 : List (String × String)) : List (String × String) :=
  ds.foldl
    (fun m desired =>
      match available.find? (fun a => headerMatches a desired) with
      | some a => dictInsert m a desired
      | none => m) m0

/-- `column_mapping` as built by `get_table_data` for page 1. -/
def columnMapping (available : List String) : List (String × String) :=
  buildMapping available desiredColumns []

/-- `processed_df.rename(columns=column_mapping)` at the level of the
column-name list. -/
def renameColumns (available : List String) : List String :=
  available.map (fun h => ((columnMapping available).lookup h).getD h)

/-- First index satisfying a predicate, if any. -/
def firstIdxWhere (p : α → Bool) : List α → Option Nat
  | [] => none
  | a :: as => if p a then some 0 else (firstIdxWhere p as).map (· + 1)

/-- The source column finally bound to a canonical field: the first
renamed column bearing the field's name, or `none` when the field is
bound to the synthetic all-empty column appended by `get_table_data`. -/
def resolveField (available : List String) (desired : String) : Option Nat :=
  firstIdxWhere (fun c => c == desired) (renameColumns available)

/-- `final_columns`: both branches of the loop append the desired
column, whether or not it was found among the renamed columns. -/
def finalColumns (available : List String) : List String :=
  desiredColumns.foldl
    (fun acc col =>
      if (renameColumns available).contains col then acc ++ [col]
      else acc ++ [col]) []

/-! ### Player extraction (`get_all_players_from_pdf` path) -/

/-- A record of `get_all_players_from_pdf`. -/
structure PRecord where
  player_name : String
  current_status : String
deriving DecidableEq, Repr

/-- The closed status vocabulary. -/
def statusVocab : List String :=
  ["Out", "Available", "Questionable", "Probable", "Doubtful"]

/-- The player-name cell test shared by `_process_page_without_headers`
and `_extract_players_from_table`: the (stripped) cell contains a comma,
splits into exactly two parts, and the parts strip to more than 2 and
more than 1 characters respectively. -/
def isPlayerCell (value : String) : Bool :=
  pyIn "," value &&
    match pySplitComma value with
    | [a, b] => decide (2 < (pyStrip a).length) && decide (1 < (pyStrip b).length)
    | _ => false

/-- One detected table: a grid of raw text cells. -/
abbrev Grid := List (List String)

/-- First cell of the row (stripped) matching the player pattern. -/
def findPlayerInRow (row : List String) : Option String :=
  (row.map pyStrip).find? isPlayerCell

/-- First cell of the row (stripped) equal to a status token. -/
def findStatusInRow (row : List String) : Option String :=
  (row.map pyStrip).find? (fun c => statusVocab.contains c)

/-- Header detection of `_extract_players_from_table`: the first row
contains "player name" or "current status" (case-insensitively). -/
def hasPlayerHeaders (grid : Grid) : Bool :=
  match grid with
  | [] => false
  | firstRow :: _ =>
    (firstRow.map (fun c => pyLower (pyStrip c))).any
      (fun v => pyIn "player name" v) ||
    (firstRow.map (fun c => pyLower (pyStrip c))).any
      (fun v => pyIn "current status" v)

/-- Status attachment of `_extract_players_from_table`
(lib_dev/pdfextractor.py:1001-1033): status on the row itself, else the
neighbouring rows in the fixed offset order `[-1, 1]`. -/
def resolveRowStatus (dfClean : Grid) (idx : Nat) (row : List String) : String :=
  match findStatusInRow row with
  | some s => s
  | none =>
    match (if 1 ≤ idx ∧ idx - 1 < dfClean.length then
        findStatusInRow (dfClean.getD (idx - 1) []) else none) with
    | some s => s
    | none =>
      match (if idx + 1 < dfClean.length then
          findStatusInRow (dfClean.getD (idx + 1) []) else none) with
      | some s => s
      | none => ""

/-- `_extract_players_from_table`: drop a recognised header row, then
emit one record per row whose first matching cell is a player name. -/
def extractPlayersFromTable (grid : Grid) : List PRecord :=
  match grid with
  | [] => []
  | _ =>
    let dfClean := if hasPlayerHeaders grid then grid.drop 1 else grid
    (List.range dfClean.length).filterMap (fun idx =>
      let row := dfClean.getD idx []
      match findPlayerInRow row with
      | some name => some ⟨name, resolveRowStatus dfClean idx row⟩
      | none => none)

/-! ### Per-document page loops (`get_table_data`, `get_all_players_from_pdf`) -/

/-- Outcome of `camelot.read_pdf` for one page: tables, or an exception
whose message may indicate that the page does not exist. -/
inductive PageResult where
  | ok (tables : List Grid)
  | err (pageNotFound : Bool)
deriving DecidableEq

/-- The external grid source, indexed by page number. -/
abbrev GridSource := Nat → PageResult

/-- Page loop of `get_table_data` (lines 76-93): a page-not-found error
breaks the loop, any other error skips the page. -/
def collectTablesAux (src : GridSource) : List Nat → List Grid
  | [] => []
  | p :: ps =>
    match src p with
    | .ok ts => ts ++ collectTablesAux src ps
    | .err notFound =>
      if notFound then [] else collectTablesAux src ps

/-- `get_table_data` tries pages 1 through 9 (`range(1, 10)`). -/
def collectTables (src : GridSource) : List Grid :=
  collectTablesAux src (List.range' 1 9)

/-- Page loop of `get_all_players_from_pdf` (lines 904-931): every
error — page-not-found included — merely skips the page. -/
def collectPlayersAux (src : GridSource) : List Nat → List PRecord
  | [] => []
  | p :: ps =>
    match src p with
    | .ok ts =>
      (ts.map extractPlayersFromTable).flatten ++ collectPlayersAux src ps
    | .err _ => collectPlayersAux src ps

/-- `get_all_players_from_pdf` also tries pages 1 through 9. -/
def collectPlayers (src : GridSource) : List PRecord :=
  collectPlayersAux src (List.range' 1 9)

/-! ### Dedup, sort and batch numbering (`get_all_players_from_pdf`,
`process_injury_report_pdfs`, `raw_injury_report.main`) -/

/-- `drop_duplicates(subset=["player_name"], keep="first")`. -/
def dropDupsAux (seen : List String) : List PRecord → List PRecord
  | [] => []
  | r :: rs =>
    if seen.contains r.player_name then dropDupsAux seen rs
    else r :: dropDupsAux (r.player_name :: seen) rs

/-- First-occurrence deduplication by `player_name`. -/
def dropDuplicatesByName (l : List PRecord) : List PRecord :=
  dropDupsAux [] l

/-- Ordering by `player_name` used by `sort_values("player_name")`. -/
def nameLe (a b : PRecord) : Prop :=
  a.player_name ≤ b.player_name

instance : DecidableRel nameLe := fun a b =>
  inferInstanceAs (Decidable (a.player_name ≤ b.player_name))

instance : IsTotal PRecord nameLe :=
  ⟨fun a b => le_total a.player_name b.player_name⟩

instance : IsTrans PRecord nameLe :=
  ⟨fun _ _ _ h1 h2 => le_trans h1 h2⟩

/-- `sort_values("player_name")`, ascending. -/
def sortByName (l : List PRecord) : List PRecord :=
  List.insertionSort nameLe l

/-- Tail of `get_all_players_from_pdf` (lines 936-944): collect, then
deduplicate by player name keeping the first occurrence, then sort
alphabetically. -/
def getAllPlayersFromPdf (src : GridSource) : List PRecord :=
  sortByName (dropDuplicatesByName (collectPlayers src))

/-- A batch record with the per-file metadata added by the callers. -/
structure BRecord where
  player_name : String
  current_status : String
  source_file : String
  row_order : Nat
deriving DecidableEq, Repr

/-- `df["source_file"] = pdf_file; df["row_order"] = range(1, len(df)+1)`. -/
def addMetaFrom (file : String) (k : Nat) : List PRecord → List BRecord
  | [] => []
  | r :: rs => ⟨r.player_name, r.current_status, file, k⟩ :: addMetaFrom file (k + 1) rs

/-- Per-file metadata with `row_order` starting at 1. -/
def addMeta (file : String) (l : List PRecord) : List BRecord :=
  addMetaFrom file 1 l

/-- `combined_df["row_order"] = range(1, len(combined_df)+1)`. -/
def renumberFrom (k : Nat) : List BRecord → List BRecord
  | [] => []
  | r :: rs => { r with row_order := k } :: renumberFrom (k + 1) rs

/-- Global renumbering over the concatenated batch. -/
def renumber (l : List BRecord) : List BRecord :=
  renumberFrom 1 l

/-- Batch pipeline of `process_injury_report_pdfs`
(lib_dev/smartbetting.py:874-891): per-file extraction (deduplicated and
sorted per file), per-file metadata, concatenation, then one global
`row_order` renumbering. Each pair carries the source-file name and the
raw per-file extraction result. -/
def processInjuryReportPdfs (files : List (String × List PRecord)) : List BRecord :=
  renumber
    ((files.map
      (fun fp => addMeta fp.1 (sortByName (dropDuplicatesByName fp.2)))).flatten)

/-! ## Helper lemmas -/

theorem renumberFrom_map_row_order (k : Nat) (l : List BRecord) :
    (renumberFrom k l).map (fun r => r.row_order) = List.range' k l.length := by
  induction l generalizing k with
  | nil => rfl
  | cons r rs ih => simp [renumberFrom, ih, List.range'_succ]

theorem renumberFrom_length (k : Nat) (l : List BRecord) :
    (renumberFrom k l).length = l.length := by
  induction l generalizing k with
  | nil => rfl
  | cons r rs ih => simp [renumberFrom, ih]

theorem addMetaFrom_map_row_order (file : String) (k : Nat) (l : List PRecord) :
    (addMetaFrom file k l).map (fun r => r.row_order) = List.range' k l.length := by
  induction l generalizing k with
  | nil => rfl
  | cons r rs ih => simp [addMetaFrom, ih, List.range'_succ]

/-! ## Theorems about the claims -/

/-- C7: the final batch output of `process_injury_report_pdfs` carries
`row_order` values forming the dense range `1..N` (`List.range' 1 N`),
recomputed once globally over the concatenation of all per-file
results. -/
theorem c7_row_order_dense_global (files : List (String × List PRecord)) :
    (processInjuryReportPdfs files).map (fun r => r.row_order) =
      List.range' 1 (processInjuryReportPdfs files).length := by
  unfold processInjuryReportPdfs renumber
  rw [renumberFrom_map_row_order, renumberFrom_length]

/-- C9: the record sequence returned by `get_all_players_from_pdf` is
sorted in nondecreasing alphabetical order of `player_name` (after
first-occurrence deduplication), and the per-file `row_order` counter
assigned afterwards by the raw pipeline is the dense range `1..N` over
that alphabetical order. -/
theorem c9_sorted_output_row_order (src : GridSource) (file : String) :
    List.Sorted nameLe (getAllPlayersFromPdf src) ∧
    (addMeta file (getAllPlayersFromPdf src)).map (fun r => r.row_order) =
      List.range' 1 (getAllPlayersFromPdf src).length := by
  constructor
  · exact List.sorted_insertionSort nameLe _
  · exact addMetaFrom_map_row_order file 1 _

/-- C5: a row whose only non-empty canonical field is the status field
(no player name, team, date, matchup or time) is never present in the
output of `_clean_fragmented_data_improved`. -/
theorem c5_no_standalone_status_row (rows : List Row6) (r : Row6)
    (hp : (pyStrip r.player_name) = "") (ht : (pyStrip r.team) = "")
    (hd : (pyStrip r.game_date) = "") (hm : (pyStrip r.matchup) = "")
    (hg : (pyStrip r.game_time) = "") (_hs : (pyStrip r.current_status) ≠ "") :
    r ∉ cleanFragmentedDataImproved rows := by
  intro hmem
  rw [cleanFragmentedDataImproved, List.mem_filter] at hmem
  have hv := hmem.2
  have h3 : ¬ (3 ≤ countNonEmpty r) := by
    have hcount : countNonEmpty r ≤ 1 := by
      unfold countNonEmpty
      simp only [List.map, hp, ht, hd, hm, hg, List.countP_cons, List.countP_nil]
      split <;> simp
    omega
  have hfalse : isValidRow r = false := by
    unfold isValidRow
    simp [hp, ht, hd, hm, hg, h3]
  rw [hfalse] at hv
  exact Bool.noConfusion hv

/-- C5 witness: a concrete standalone status fragment is filtered out. -/
theorem c5_witness :
    (⟨"", "", "", "", "", "knee soreness"⟩ : Row6) ∉
      cleanFragmentedDataImproved [⟨"", "", "", "", "", "knee soreness"⟩] :=
  c5_no_standalone_status_row _ _ (by decide) (by decide) (by decide)
    (by decide) (by decide) (by decide)

/-- C10: in `_extract_players_from_table`, when a player row has no
in-row status, the neighbouring rows are searched with offset `-1`
first: whenever the preceding row yields a status, that status is
attached, regardless of what the following row holds. -/
theorem c10_lookbehind_preference (dfClean : Grid) (idx : Nat)
    (row : List String) (s : String)
    (hrow : findStatusInRow row = none) (h1 : 1 ≤ idx)
    (h2 : idx - 1 < dfClean.length)
    (hprev : findStatusInRow (dfClean.getD (idx - 1) []) = some s) :
    resolveRowStatus dfClean idx row = s := by
  unfold resolveRowStatus
  rw [hrow, if_pos (And.intro h1 h2), hprev]

/-- C10 witness: the previous row's "Out" wins over the next row's
"Available". -/
theorem c10_witness :
    resolveRowStatus [["Out"], ["Smith, John"], ["Available"]] 1
      ["Smith, John"] = "Out" :=
  c10_lookbehind_preference [["Out"], ["Smith, John"], ["Available"]] 1
    ["Smith, John"] "Out" (by decide) (by decide) (by decide) (by decide)

theorem splitCommaChars_length (l : List Char) :
    (splitCommaChars l).length = l.count ',' + 1 := by
  induction l with
  | nil => rfl
  | cons c cs ih =>
    by_cases h : c = ','
    · subst h
      simp [splitCommaChars, List.count_cons, ih]
    · simp only [splitCommaChars, if_neg h]
      cases hs : splitCommaChars cs with
      | nil => rw [hs] at ih; simp at ih
      | cons t ts =>
        rw [hs] at ih
        simp only [List.length_cons] at ih ⊢
        have hc : ((c :: cs).count ',') = cs.count ',' := by
          simp [List.count_cons, h]
        rw [hc]
        exact ih

theorem comma_mem_of_split_pair {l : List Char} {x y : List Char}
    (h : splitCommaChars l = [x, y]) : ',' ∈ l := by
  have hl := splitCommaChars_length l
  rw [h] at hl
  simp only [List.length_cons, List.length_nil] at hl
  have hpos : 0 < l.count ',' := by omega
  exact List.count_pos_iff.mp hpos

theorem containsSub_of_mem {l : List Char} {c : Char} (h : c ∈ l) :
    containsSub l [c] = true := by
  induction l with
  | nil => cases h
  | cons a t ih =>
    rcases List.mem_cons.mp h with rfl | hmem
    · have hp : ([c] : List Char).isPrefixOf (c :: t) = true := by
        simp [List.isPrefixOf]
      simp [containsSub, hp]
    · by_cases hp : ([c] : List Char).isPrefixOf (a :: t) = true
      · simp [containsSub, hp]
      · simp [containsSub, hp, ih hmem]

theorem pyIn_comma_of_split_pair {v a b : String}
    (h : pySplitComma v = [a, b]) : pyIn "," v = true := by
  unfold pySplitComma at h
  cases hs : splitCommaChars v.data with
  | nil => rw [hs] at h; simp at h
  | cons x ts =>
    cases ts with
    | nil => rw [hs] at h; simp at h
    | cons y ts2 =>
      cases ts2 with
      | nil =>
        have hmem : ',' ∈ v.data := comma_mem_of_split_pair hs
        unfold pyIn
        have hd : (",").data = [','] := rfl
        rw [hd]
        exact containsSub_of_mem hmem
      | cons z ts3 => rw [hs] at h; simp at h

/-- C3 (amended): a cell is classified as a player name exactly when it
splits at a single comma into a surname part of at least 3 characters
and a given-name part of at least 2 characters (after stripping) — the
code requires strictly more than 2 and more than 1 characters — and the
first matching (stripped) cell of a row becomes `player_name` verbatim. -/
theorem c3_player_cell_thresholds :
    (∀ v : String, isPlayerCell v = true ↔
      ∃ a b, pySplitComma v = [a, b] ∧ 3 ≤ (pyStrip a).length ∧
        2 ≤ (pyStrip b).length) ∧
    (∀ (row : List String) (name : String),
      findPlayerInRow row = some name →
      isPlayerCell name = true ∧ name ∈ row.map pyStrip) := by
  constructor
  · intro v
    constructor
    · intro h
      unfold isPlayerCell at h
      cases hs : pySplitComma v with
      | nil => rw [hs] at h; simp at h
      | cons a ts =>
        cases ts with
        | nil => rw [hs] at h; simp at h
        | cons b ts2 =>
          cases ts2 with
          | nil =>
            rw [hs] at h
            simp only [Bool.and_eq_true, decide_eq_true_eq] at h
            exact ⟨a, b, rfl, by omega, by omega⟩
          | cons c ts3 => rw [hs] at h; simp at h
    · rintro ⟨a, b, hab, ha, hb⟩
      unfold isPlayerCell
      rw [hab, pyIn_comma_of_split_pair hab]
      have h2 : 2 < (pyStrip a).length := by omega
      have h1 : 1 < (pyStrip b).length := by omega
      simp [h2, h1]
  · intro row name h
    exact ⟨List.find?_some h, List.mem_of_find?_eq_some h⟩

/-- C3 counterexample: "Ng, Tom" matches the spec's pattern
"⟨2+ chars⟩, ⟨1+ chars⟩" but the code rejects it (the surname part must
be strictly longer than 2 characters). -/
theorem c3_ng_tom_cex : isPlayerCell "Ng, Tom" = false := by decide

/-- C3 witness: "Doe, John" is classified as a player. -/
theorem c3_witness : isPlayerCell "Doe, John" = true :=
  (c3_player_cell_thresholds.1 "Doe, John").mpr
    ⟨"Doe", " John", by decide, by decide, by decide⟩

/-- C4 (amended): in `get_table_data`'s page loop a page-not-found error
terminates the loop and any other error skips the page; in
`get_all_players_from_pdf`'s page loop every error — page-not-found
included — merely skips the page. No error ever aborts the document:
both loops return normally. -/
theorem c4_error_handling_per_loop (src : GridSource) (p : Nat) (ps : List Nat) :
    (src p = .err true → collectTablesAux src (p :: ps) = []) ∧
    (src p = .err false →
      collectTablesAux src (p :: ps) = collectTablesAux src ps) ∧
    (∀ b, src p = .err b →
      collectPlayersAux src (p :: ps) = collectPlayersAux src ps) := by
  refine ⟨?_, ?_, ?_⟩
  · intro h
    simp [collectTablesAux, h]
  · intro h
    simp [collectTablesAux, h]
  · intro b h
    simp [collectPlayersAux, h]

/-- C4 counterexample: a page-not-found error on page 1 does not
terminate the loop of `get_all_players_from_pdf` — page 2 still
contributes a record — while the same source makes `get_table_data`
stop with no tables. -/
theorem c4_players_loop_not_terminated_cex :
    collectPlayers (fun p => if p = 1 then .err true
      else if p = 2 then .ok [[["Smith, John", "Out"]]] else .ok []) =
      [⟨"Smith, John", "Out"⟩] ∧
    collectTables (fun p => if p = 1 then .err true
      else if p = 2 then .ok [[["Smith, John", "Out"]]] else .ok []) = [] := by
  constructor
  · decide
  · decide

/-- C4 witness: the player loop skips an erroring page. -/
theorem c4_witness :
    collectPlayersAux (fun q => if q = 1 then .err true else .ok []) (1 :: [2]) =
      collectPlayersAux (fun q => if q = 1 then .err true else .ok []) [2] :=
  (c4_error_handling_per_loop (fun q => if q = 1 then .err true else .ok [])
    1 [2]).2.2 true (by decide)

theorem collectTablesAux_congr (src src2 : GridSource) (ps : List Nat)
    (h : ∀ p ∈ ps, src p = src2 p) :
    collectTablesAux src ps = collectTablesAux src2 ps := by
  induction ps with
  | nil => rfl
  | cons p ps ih =>
    have hp : src p = src2 p := h p (List.mem_cons_self p ps)
    have ih2 := ih (fun q hq => h q (List.mem_cons_of_mem p hq))
    simp [collectTablesAux, hp, ih2]

theorem collectPlayersAux_congr (src src2 : GridSource) (ps : List Nat)
    (h : ∀ p ∈ ps, src p = src2 p) :
    collectPlayersAux src ps = collectPlayersAux src2 ps := by
  induction ps with
  | nil => rfl
  | cons p ps ih =>
    have hp : src p = src2 p := h p (List.mem_cons_self p ps)
    have ih2 := ih (fun q hq => h q (List.mem_cons_of_mem p hq))
    simp [collectPlayersAux, hp, ih2]

/-- C8: both extraction entry points examine only pages 1 through 9
(`range(1, 10)`): two grid sources that agree on pages 1..9 produce
identical outputs, so content on page 10 or later never contributes. -/
theorem c8_pages_1_to_9_only (src src2 : GridSource)
    (h : ∀ p, 1 ≤ p → p ≤ 9 → src p = src2 p) :
    collectTables src = collectTables src2 ∧
    collectPlayers src = collectPlayers src2 := by
  have hmem : ∀ p ∈ List.range' 1 9, src p = src2 p := by
    intro p hp
    rw [show List.range' 1 9 = [1, 2, 3, 4, 5, 6, 7, 8, 9] from rfl] at hp
    simp only [List.mem_cons, List.not_mem_nil, or_false] at hp
    rcases hp with rfl | rfl | rfl | rfl | rfl | rfl | rfl | rfl | rfl <;>
      exact h _ (by omega) (by omega)
  exact ⟨collectTablesAux_congr src src2 _ hmem,
    collectPlayersAux_congr src src2 _ hmem⟩

/-- C8 witness: a source that only has content on pages 10 and later
gives the same (empty) outputs as the all-empty source. -/
theorem c8_witness :
    collectTables (fun _ => .ok []) =
      collectTables (fun p => if 10 ≤ p then
        .ok [[["Smith, John", "Out"]]] else .ok []) ∧
    collectPlayers (fun _ => .ok []) =
      collectPlayers (fun p => if 10 ≤ p then
        .ok [[["Smith, John", "Out"]]] else .ok []) :=
  c8_pages_1_to_9_only _ _ (by
    intro p h1 h2
    have h10 : ¬ 10 ≤ p := by omega
    simp [h10])

theorem dropDupsAux_names_nodup (l : List PRecord) (seen : List String) :
    ((dropDupsAux seen l).map (fun r => r.player_name)).Nodup ∧
    ∀ n ∈ (dropDupsAux seen l).map (fun r => r.player_name), n ∉ seen := by
  induction l generalizing seen with
  | nil => simp [dropDupsAux]
  | cons r rs ih =>
    by_cases hc : r.player_name ∈ seen
    · simpa [dropDupsAux, hc] using ih seen
    · have ihr := ih (r.player_name :: seen)
      have hrw : dropDupsAux seen (r :: rs) =
          r :: dropDupsAux (r.player_name :: seen) rs := by
        simp [dropDupsAux, hc]
      rw [hrw]
      constructor
      · simp only [List.map_cons, List.nodup_cons]
        exact ⟨fun hmem => (ihr.2 _ hmem) (List.mem_cons_self _ _), ihr.1⟩
      · intro n hn
        simp only [List.map_cons, List.mem_cons] at hn
        rcases hn with rfl | hn
        · exact hc
        · exact fun hmem => (ihr.2 n hn) (List.mem_cons_of_mem _ hmem)

theorem renumberFrom_map_name_file (k : Nat) (l : List BRecord) :
    (renumberFrom k l).map (fun r => (r.player_name, r.source_file)) =
      l.map (fun r => (r.player_name, r.source_file)) := by
  induction l generalizing k with
  | nil => rfl
  | cons r rs ih => simp [renumberFrom, ih]

theorem addMetaFrom_map_name_file (file : String) (k : Nat) (l : List PRecord) :
    (addMetaFrom file k l).map (fun r => (r.player_name, r.source_file)) =
      l.map (fun p => (p.player_name, file)) := by
  induction l generalizing k with
  | nil => rfl
  | cons r rs ih => simp [addMetaFrom, ih]

/-- C1 (amended): deduplication by `player_name` is applied only inside
`get_all_players_from_pdf`, per document; the batch pipeline then just
concatenates the per-file results and renumbers: within each file's
contribution player names are unique, and the batch output is exactly
the concatenation of the per-file deduplicated outputs, so a player
appearing in several documents appears once per document, not once
globally. -/
theorem c1_batch_dedup_per_file_only :
    (∀ ps : List PRecord,
      ((sortByName (dropDuplicatesByName ps)).map
        (fun r => r.player_name)).Nodup) ∧
    (∀ files : List (String × List PRecord),
      (processInjuryReportPdfs files).map
          (fun r => (r.player_name, r.source_file)) =
        (files.map (fun fp =>
          (sortByName (dropDuplicatesByName fp.2)).map
            (fun r => (r.player_name, fp.1)))).flatten) := by
  constructor
  · intro ps
    have hperm : List.Perm (sortByName (dropDuplicatesByName ps))
        (dropDuplicatesByName ps) :=
      List.perm_insertionSort nameLe _
    have hnodup := (dropDupsAux_names_nodup ps []).1
    exact ((hperm.map (fun r => r.player_name)).nodup_iff).mpr hnodup
  · intro files
    unfold processInjuryReportPdfs renumber
    rw [renumberFrom_map_name_file, List.map_flatten, List.map_map]
    exact congrArg List.flatten
      (List.map_congr_left (fun fp _ => addMetaFrom_map_name_file fp.1 1 _))

/-- C1 counterexample: two documents each contributing one "Doe, John"
record yield a batch output with two "Doe, John" records, not one. -/
theorem c1_two_docs_duplicate_cex :
    ((processInjuryReportPdfs
      [("a.pdf", [⟨"Doe, John", "Out"⟩]), ("b.pdf", [⟨"Doe, John", "Out"⟩])]).filter
        (fun r => r.player_name == "Doe, John")).length = 2 := by
  decide

theorem orphan_not_kept {x : Row6} (h : isOrphanStatusRow x = true) :
    (isPlayerRow x || isHeaderRow x) = false := by
  unfold isOrphanStatusRow at h
  unfold isPlayerRow isHeaderRow
  simp only [Bool.and_eq_true, beq_iff_eq] at h
  obtain ⟨⟨⟨⟨⟨hs, hp⟩, ht⟩, hd⟩, hm⟩, hg⟩ := h
  simp [hp, ht, hd, hm, hg]

theorem filter_dropWhile_of_imp (p q : α → Bool) (l : List α)
    (h : ∀ x, q x = true → p x = false) :
    (l.dropWhile q).filter p = l.filter p := by
  induction l with
  | nil => rfl
  | cons a t ih =>
    by_cases hq : q a = true
    · rw [List.dropWhile_cons_of_pos hq, ih]
      rw [List.filter_cons_of_neg (by simp [h a hq])]
    · rw [List.dropWhile_cons_of_neg (by simp [hq])]

theorem consolidate_eq_filter (l : List Row6) :
    consolidateRelatedRowsImproved l =
      l.filter (fun r => isPlayerRow r || isHeaderRow r) := by
  induction l using consolidateRelatedRowsImproved.induct with
  | case1 => simp [consolidateRelatedRowsImproved]
  | case2 r rest hp ih =>
    rw [show consolidateRelatedRowsImproved (r :: rest) =
        r :: consolidateRelatedRowsImproved (rest.dropWhile isOrphanStatusRow) by
      simp [consolidateRelatedRowsImproved, hp]]
    rw [ih, filter_dropWhile_of_imp _ _ _ (fun x hx => orphan_not_kept hx)]
    rw [List.filter_cons_of_pos (by simp [hp])]
  | case3 r rest hp hh ih =>
    rw [show consolidateRelatedRowsImproved (r :: rest) =
        r :: consolidateRelatedRowsImproved rest by
      simp [consolidateRelatedRowsImproved, hp, hh]]
    rw [ih, List.filter_cons_of_pos (by simp [hh])]
  | case4 r rest hp hh ih =>
    rw [show consolidateRelatedRowsImproved (r :: rest) =
        consolidateRelatedRowsImproved rest by
      simp [consolidateRelatedRowsImproved, hp, hh]]
    rw [ih, List.filter_cons_of_neg (by simp [hp, hh])]

/-- C2 (amended): in `_consolidate_related_rows_improved` the orphan
status/reason rows following a player row are consumed and their text
discarded — the emitted record is the player row unchanged, keeping its
own status alone; no "; " joining occurs in this pipeline. -/
theorem c2_orphan_row_dropped_status_kept (p : Row6) (os rest : List Row6)
    (hp : isPlayerRow p = true)
    (hos : ∀ o ∈ os, isOrphanStatusRow o = true) :
    consolidateRelatedRowsImproved (p :: (os ++ rest)) =
      p :: consolidateRelatedRowsImproved rest := by
  rw [consolidate_eq_filter, consolidate_eq_filter]
  rw [List.filter_cons_of_pos (by simp [hp])]
  congr 1
  rw [List.filter_append]
  have hnil : os.filter (fun r => isPlayerRow r || isHeaderRow r) = [] := by
    rw [List.filter_eq_nil_iff]
    intro a ha
    simp [orphan_not_kept (hos a ha)]
  rw [hnil, List.nil_append]

/-- C2 witness: a player row followed by one orphan reason row is
emitted unchanged. -/
theorem c2_witness :
    consolidateRelatedRowsImproved
      [⟨"", "", "", "Lakers", "James, LeBron", "Out"⟩,
       ⟨"", "", "", "", "", "knee soreness"⟩] =
      [⟨"", "", "", "Lakers", "James, LeBron", "Out"⟩] := by
  have h := c2_orphan_row_dropped_status_kept
    ⟨"", "", "", "Lakers", "James, LeBron", "Out"⟩
    [⟨"", "", "", "", "", "knee soreness"⟩] [] (by decide) (by decide)
  simpa [consolidate_eq_filter] using h

/-- C2 counterexample: on the spec's own example the pipeline emits the
record with `current_status = "Out"`, not "Out; knee soreness". -/
theorem c2_join_cex :
    (cleanFragmentedDataImproved (consolidateRelatedRowsImproved
      [⟨"", "", "", "Lakers", "James, LeBron", "Out"⟩,
       ⟨"", "", "", "", "", ""⟩,
       ⟨"", "", "", "", "", "knee soreness"⟩])).map
        (fun r => r.current_status) = ["Out"] := by
  rw [consolidate_eq_filter]
  decide

theorem isPrefixOf_self (l : List Char) : l.isPrefixOf l = true := by
  induction l with
  | nil => rfl
  | cons a t ih => simp [List.isPrefixOf, ih]

theorem containsSub_self (l : List Char) : containsSub l l = true := by
  unfold containsSub
  rw [if_pos (isPrefixOf_self l)]

theorem headerMatches_self (s : String) : headerMatches s s = true := by
  unfold headerMatches pyIn
  exact containsSub_self _

theorem lookup_dictInsert (m : List (String × String)) (k v a : String) :
    (dictInsert m k v).lookup a = if a == k then some v else m.lookup a := by
  induction m with
  | nil =>
    by_cases ha : a = k
    · subst ha; simp [dictInsert, List.lookup]
    · simp [dictInsert, List.lookup, beq_false_of_ne ha]
  | cons e rest ih =>
    obtain ⟨k', v'⟩ := e
    by_cases hk : k' = k
    · subst hk
      by_cases ha : a = k'
      · subst ha; simp [dictInsert, List.lookup]
      · simp [dictInsert, List.lookup, beq_false_of_ne ha]
    · have hk1 : (k' == k) = false := beq_false_of_ne hk
      by_cases ha : a = k'
      · subst ha
        simp [dictInsert, List.lookup, hk1, beq_false_of_ne hk]
      · simp [dictInsert, List.lookup, hk1, beq_false_of_ne ha, ih]

theorem finalColumns_eq (available : List String) :
    finalColumns available = desiredColumns := by
  unfold finalColumns
  have hgen : ∀ (ds acc : List String),
      ds.foldl (fun acc col =>
        if (renameColumns available).contains col then acc ++ [col]
        else acc ++ [col]) acc = acc ++ ds := by
    intro ds
    induction ds with
    | nil => intro acc; simp [List.foldl_nil]
    | cons d ds ih =>
      intro acc
      rw [List.foldl_cons, ite_self, ih]
      simp
  simpa using hgen desiredColumns []

theorem firstIdxWhere_eq_none_iff (p : α → Bool) (l : List α) :
    firstIdxWhere p l = none ↔ ∀ a ∈ l, p a = false := by
  induction l with
  | nil => simp [firstIdxWhere]
  | cons a t ih =>
    by_cases hp : p a = true
    · simp [firstIdxWhere, hp]
    · have hp2 : p a = false := by simpa using hp
      simp [firstIdxWhere, hp2, ih]

theorem firstIdxWhere_spec (p : α → Bool) (l : List α) (m : Nat)
    (h : firstIdxWhere p l = some m) :
    ∃ hm : m < l.length, p (l.get ⟨m, hm⟩) = true ∧
      List.find? p l = some (l.get ⟨m, hm⟩) := by
  induction l generalizing m with
  | nil => simp [firstIdxWhere] at h
  | cons a t ih =>
    by_cases hp : p a = true
    · simp only [firstIdxWhere, hp, if_true, Option.some.injEq] at h
      subst h
      exact ⟨by simp, by simpa using hp, by simp [List.find?, hp]⟩
    · have hp2 : p a = false := by simpa using hp
      simp only [firstIdxWhere, hp2, Bool.false_eq_true, if_false,
        Option.map_eq_some'] at h
      obtain ⟨m', hm', rfl⟩ := h
      obtain ⟨hlt, hpm, hfind⟩ := ih m' hm'
      refine ⟨by simpa using Nat.succ_lt_succ hlt, ?_, ?_⟩
      · simpa using hpm
      · simp only [List.find?, hp2]
        simpa using hfind

theorem firstIdxWhere_intro (p : α → Bool) (l : List α) (m : Nat)
    (hm : m < l.length) (hp : p (l.get ⟨m, hm⟩) = true)
    (hlt : ∀ i (hi : i < l.length), i < m → p (l.get ⟨i, hi⟩) = false) :
    firstIdxWhere p l = some m := by
  induction l generalizing m with
  | nil => simp at hm
  | cons a t ih =>
    cases m with
    | zero => simp only [List.get] at hp; simp [firstIdxWhere, hp]
    | succ m' =>
      have ha : p a = false := hlt 0 (by simp) (Nat.succ_pos m')
      have hm' : m' < t.length := by simpa using hm
      have hp' : p (t.get ⟨m', hm'⟩) = true := by simpa using hp
      have hlt' : ∀ i (hi : i < t.length), i < m' → p (t.get ⟨i, hi⟩) = false := by
        intro i hi hilt
        have := hlt (i + 1) (by simpa using Nat.succ_lt_succ hi)
          (Nat.succ_lt_succ hilt)
        simpa using this
      simp [firstIdxWhere, ha, ih m' hm' hp' hlt']

theorem buildMapping_cons (available : List String) (d' : String)
    (ds : List String) (m0 : List (String × String)) :
    buildMapping available (d' :: ds) m0 =
      buildMapping available ds
        (match available.find? (fun x => headerMatches x d') with
         | some a0 => dictInsert m0 a0 d'
         | none => m0) := rfl

theorem lookup_buildMapping_some (available ds : List String)
    (m0 : List (String × String)) (a d : String)
    (h : (buildMapping available ds m0).lookup a = some d) :
    m0.lookup a = some d ∨
      (d ∈ ds ∧ available.find? (fun x => headerMatches x d) = some a) := by
  induction ds generalizing m0 with
  | nil => exact Or.inl h
  | cons d' ds ih =>
    rw [buildMapping_cons] at h
    rcases ih _ h with h1 | h2
    · cases hf : available.find? (fun x => headerMatches x d') with
      | none =>
        rw [hf] at h1
        exact Or.inl h1
      | some a0 =>
        rw [hf] at h1
        simp only [lookup_dictInsert] at h1
        by_cases ha : a = a0
        · subst ha
          simp only [beq_self_eq_true, if_true, Option.some.injEq] at h1
          subst h1
          exact Or.inr ⟨List.mem_cons_self _ _, hf⟩
        · rw [if_neg (by simp [beq_false_of_ne ha])] at h1
          exact Or.inl h1
    · exact Or.inr ⟨List.mem_cons_of_mem _ h2.1, h2.2⟩

theorem lookup_buildMapping_not_found (available ds : List String)
    (m0 : List (String × String)) (a : String)
    (h : ∀ d ∈ ds, available.find? (fun x => headerMatches x d) ≠ some a) :
    (buildMapping available ds m0).lookup a = m0.lookup a := by
  induction ds generalizing m0 with
  | nil => rfl
  | cons d' ds ih =>
    rw [buildMapping_cons]
    have ih2 := fun m0' =>
      ih m0' (fun q hq => h q (List.mem_cons_of_mem _ hq))
    cases hf : available.find? (fun x => headerMatches x d') with
    | none =>
      simp only [hf]
      exact ih2 m0
    | some a0 =>
      have ha0 : a ≠ a0 := by
        intro he
        exact h d' (List.mem_cons_self _ _) (by rw [he]; exact hf)
      simp only [hf]
      rw [ih2 (dictInsert m0 a0 d'), lookup_dictInsert,
        if_neg (by simp [beq_false_of_ne ha0])]

theorem lookup_buildMapping_first (available ds : List String)
    (m0 : List (String × String)) (a d : String)
    (hd : d ∈ ds)
    (hfind : available.find? (fun x => headerMatches x d) = some a)
    (hother : ∀ d' ∈ ds, d' ≠ d →
      available.find? (fun x => headerMatches x d') ≠ some a) :
    (buildMapping available ds m0).lookup a = some d := by
  induction ds generalizing m0 with
  | nil => cases hd
  | cons d' ds ih =>
    rw [buildMapping_cons]
    by_cases hmem : d ∈ ds
    · exact ih _ hmem (fun q hq hne => hother q (List.mem_cons_of_mem _ hq) hne)
    · have hdd : d = d' := by
        rcases List.mem_cons.mp hd with h | h
        · exact h
        · exact absurd h hmem
      subst hdd
      simp only [hfind]
      rw [lookup_buildMapping_not_found available ds _ a
        (fun q hq => hother q (List.mem_cons_of_mem _ hq)
          (fun he => hmem (he ▸ hq)))]
      rw [lookup_dictInsert]
      simp

/-- C6 (amended): the six-field invariant holds unconditionally
(`final_columns` is always exactly the six canonical labels); and
provided that no header text matches two distinct canonical labels and
that the renamed header names are pairwise distinct, every canonical
field is bound to the first column whose header contains its label, or
to the synthetic empty column when no column matches. Without those
provisos a column that is the first match of several canonical fields
is handed to the later field only (see the counterexample). -/
theorem c6_field_mapping (available : List String)
    (H2 : ∀ x ∈ available, ∀ d1 ∈ desiredColumns, ∀ d2 ∈ desiredColumns,
      headerMatches x d1 = true → headerMatches x d2 = true → d1 = d2)
    (H3 : (renameColumns available).Nodup) :
    finalColumns available = desiredColumns ∧
    ∀ d ∈ desiredColumns,
      resolveField available d =
        firstIdxWhere (fun x => headerMatches x d) available := by
  refine ⟨finalColumns_eq available, ?_⟩
  intro d hd
  unfold resolveField
  cases hfi : firstIdxWhere (fun x => headerMatches x d) available with
  | none =>
    have hall := (firstIdxWhere_eq_none_iff _ _).mp hfi
    rw [firstIdxWhere_eq_none_iff]
    intro c hc
    obtain ⟨a, ha, rfl⟩ := List.mem_map.mp hc
    by_cases hcd : ((columnMapping available).lookup a).getD a = d
    · exfalso
      cases hl : (columnMapping available).lookup a with
      | some d0 =>
        rw [hl] at hcd
        simp only [Option.getD_some] at hcd
        subst hcd
        rcases lookup_buildMapping_some available desiredColumns [] a _ hl
          with h1 | h2
        · simp [List.lookup] at h1
        · have hmt := List.find?_some h2.2
          rw [hall a ha] at hmt
          exact Bool.noConfusion hmt
      | none =>
        rw [hl] at hcd
        simp only [Option.getD_none] at hcd
        subst hcd
        have hself := headerMatches_self a
        rw [hall a ha] at hself
        exact Bool.noConfusion hself
    · simpa using hcd
  | some m =>
    obtain ⟨hm, hpm, hfind⟩ := firstIdxWhere_spec _ _ _ hfi
    have hlk : (columnMapping available).lookup (available.get ⟨m, hm⟩) = some d := by
      apply lookup_buildMapping_first available desiredColumns [] _ d hd hfind
      intro d' hd' hne hf'
      have h1 := List.find?_some hf'
      exact hne (H2 _ (List.get_mem _ _ _) d' hd' d hd h1 hpm)
    have hmlen : m < (renameColumns available).length := by
      simpa [renameColumns] using hm
    have hget : (renameColumns available).get ⟨m, hmlen⟩ = d := by
      have hgm : (renameColumns available).get ⟨m, hmlen⟩ =
          ((columnMapping available).lookup (available.get ⟨m, hm⟩)).getD
            (available.get ⟨m, hm⟩) := by
        simp [renameColumns]
      rw [hgm, hlk, Option.getD_some]
    apply firstIdxWhere_intro _ _ m hmlen
    · show ((renameColumns available).get ⟨m, hmlen⟩ == d) = true
      rw [hget]
      simp
    · intro i hi hilt
      have hne : (renameColumns available).get ⟨i, hi⟩ ≠
          (renameColumns available).get ⟨m, hmlen⟩ := by
        intro he
        have hij := (H3.get_inj_iff).mp he
        have : i = m := congrArg Fin.val hij
        omega
      rw [hget] at hne
      simpa using hne

/-- C6 counterexample: with a first header containing both "game date"
and "game time", the `Game Date` field is bound to the synthetic empty
column even though the first column's header matches it — the dict entry
is overwritten by `Game Time` — contradicting the claimed
first-matching-column rule. -/
theorem c6_overlapping_header_cex :
    headerMatches "Game Date Game Time" "Game Date" = true ∧
    resolveField ["Game Date Game Time", "Matchup", "Team", "Player Name",
      "Current Status"] "Game Date" = none := by
  constructor
  · decide
  · decide

/-- C6 witness: with the standard headers, `Player Name` is bound to
column 4. -/
theorem c6_witness :
    resolveField ["Game Date", "Game Time", "Matchup", "Team",
      "Player Name", "Current Status"] "Player Name" = some 4 := by
  rw [(c6_field_mapping ["Game Date", "Game Time", "Matchup", "Team",
      "Player Name", "Current Status"] (by decide) (by decide)).2
    "Player Name" (by decide)]
  decide

end Lamjav
